import Mathlib

/-!
Shallow embedding of `src/src/numerics/sparse_matrix.C` (libMesh `SparseMatrix`
methods): the attach operations, the backend factory `build`, the block-to-scalar
index expansion `add_block_matrix`, and the distributed print protocol.
Scalars are modelled by `ℚ` (exact arithmetic; the code's equality test against
zero is exact, so any field with decidable equality is faithful).
Fatal paths (libmesh_error_msg / libmesh_assert / libmesh_not_implemented) are
modelled by `none` / dedicated error constructors; C++ undefined behaviour
(division or modulo by zero) gets its own constructor where a claim depends
on it.
-/

namespace LibmeshSM

/-! ### attach_dof_map / attach_sparsity_pattern (sparse_matrix.C lines 57-71)

The DofMap and SparsityPattern::Build collaborators are external; a sparsity
pattern is identified by an opaque token (`ℕ`), and the only DofMap member the
attach code uses is `get_sparsity_pattern()` (a possibly-null pointer). -/

structure DofMap where
  get_sparsity_pattern : Option ℕ
  deriving DecidableEq

structure SMState where
  dof_map : Option DofMap
  sp : Option ℕ
  initialized : Bool
  deriving DecidableEq

/-- Translation of `SparseMatrix<T>::attach_dof_map` (lines 57-63):
`_dof_map = &dof_map; if (!_sp) _sp = dof_map.get_sparsity_pattern();`. -/
def attach_dof_map (st : SMState) (dm : DofMap) : SMState :=
  let st1 : SMState := { st with dof_map := some dm }
  if st1.sp = none then { st1 with sp := dm.get_sparsity_pattern } else st1

/-- Translation of `SparseMatrix<T>::attach_sparsity_pattern` (lines 67-71):
`_sp = &sp;` (the argument is a C++ reference, hence never null). -/
def attach_sparsity_pattern (st : SMState) (spTok : ℕ) : SMState :=
  { st with sp := some spTok }

/-! ### SparseMatrix<T>::build (sparse_matrix.C lines 149-191)

The `SolverPackage` enum comes from `libmesh/enum_solver_package.h` (not under
src/); the switch in src/ names four vendor tags and sends everything else to
the default branch. The `#ifdef LIBMESH_HAVE_*` guards are modelled by a
configuration record of booleans: when a flag is false the corresponding
`case` label is absent and that tag falls through to `default`. -/

inductive SolverPackage
  | PETSC_SOLVERS
  | TRILINOS_SOLVERS
  | LASPACK_SOLVERS
  | EIGEN_SOLVERS
  | NLOPT_SOLVERS
  | INVALID_SOLVER_PACKAGE
  deriving DecidableEq, Fintype

inductive MatrixBuildType
  | AUTOMATIC
  | DIAGONAL
  deriving DecidableEq

inductive BackendKind
  | DiagonalMatrix
  | LaspackMatrix
  | PetscMatrix
  | EpetraMatrix
  | EigenSparseMatrix
  deriving DecidableEq

structure BuildConfig where
  have_laspack : Bool
  have_petsc : Bool
  have_trilinos_epetra : Bool
  have_eigen : Bool
  deriving DecidableEq

/-- Name of a vendor tag, as streamed into the fatal error message. -/
def solverPackageName : SolverPackage → String
  | .PETSC_SOLVERS => "PETSC_SOLVERS"
  | .TRILINOS_SOLVERS => "TRILINOS_SOLVERS"
  | .LASPACK_SOLVERS => "LASPACK_SOLVERS"
  | .EIGEN_SOLVERS => "EIGEN_SOLVERS"
  | .NLOPT_SOLVERS => "NLOPT_SOLVERS"
  | .INVALID_SOLVER_PACKAGE => "INVALID_SOLVER_PACKAGE"

/-- Message of `libmesh_error_msg("ERROR:  Unrecognized solver package: " << solver_package)`
(line 189). -/
def buildErrMsg (sp : SolverPackage) : String :=
  "ERROR:  Unrecognized solver package: " ++ solverPackageName sp

/-- Translation of `SparseMatrix<T>::build` (lines 149-191): the DIAGONAL
override at lines 158-159, then the `switch (solver_package)` whose cases
exist only when the matching `LIBMESH_HAVE_*` macro is defined. -/
def build (cfg : BuildConfig) (solver_package : SolverPackage)
    (matrix_build_type : MatrixBuildType) : Except String BackendKind :=
  if matrix_build_type = MatrixBuildType.DIAGONAL then
    Except.ok BackendKind.DiagonalMatrix
  else
    match solver_package with
    | .LASPACK_SOLVERS =>
        if cfg.have_laspack then Except.ok BackendKind.LaspackMatrix
        else Except.error (buildErrMsg solver_package)
    | .PETSC_SOLVERS =>
        if cfg.have_petsc then Except.ok BackendKind.PetscMatrix
        else Except.error (buildErrMsg solver_package)
    | .TRILINOS_SOLVERS =>
        if cfg.have_trilinos_epetra then Except.ok BackendKind.EpetraMatrix
        else Except.error (buildErrMsg solver_package)
    | .EIGEN_SOLVERS =>
        if cfg.have_eigen then Except.ok BackendKind.EigenSparseMatrix
        else Except.error (buildErrMsg solver_package)
    | sp => Except.error (buildErrMsg sp)

/-- Whether a vendor tag has its `case` compiled into the switch. -/
def compiledIn (cfg : BuildConfig) : SolverPackage → Bool
  | .LASPACK_SOLVERS => cfg.have_laspack
  | .PETSC_SOLVERS => cfg.have_petsc
  | .TRILINOS_SOLVERS => cfg.have_trilinos_epetra
  | .EIGEN_SOLVERS => cfg.have_eigen
  | _ => false

/-- Backend variant each vendor `case` constructs. Tags with no `case` in the
switch are mapped to an arbitrary value; `compiledIn` is `false` for them, so
the value is never relied upon. -/
def backendFor : SolverPackage → BackendKind
  | .LASPACK_SOLVERS => BackendKind.LaspackMatrix
  | .PETSC_SOLVERS => BackendKind.PetscMatrix
  | .TRILINOS_SOLVERS => BackendKind.EpetraMatrix
  | .EIGEN_SOLVERS => BackendKind.EigenSparseMatrix
  | _ => BackendKind.DiagonalMatrix

/-! ### SparseMatrix<T>::add_block_matrix (sparse_matrix.C lines 76-111) -/

/-- Dense element matrix collaborator: only `m()`, `n()` and the (opaque,
passed-through) entries are used by `add_block_matrix`. -/
structure DenseMat where
  m : ℕ
  n : ℕ
  entry : ℕ → ℕ → ℚ

/-- Outcome of `add_block_matrix`: `ub` marks C++ undefined behaviour
(division or modulo by zero), `assertFail` a failing `libmesh_assert`, and
`ok` carries exactly the arguments handed to `this->add_matrix` at line 110. -/
inductive BlockResult
  | ub
  | assertFail
  | ok (dm : DenseMat) (rows cols : List ℕ)

/-- Translation of `SparseMatrix<T>::add_block_matrix` (lines 76-111), with
evaluation order preserved: the first assert divides `dm.m()` by
`brows.size()` and `dm.n()` by `bcols.size()` (UB when either is 0), then
`blocksize = dm.m()/brows.size()`, then the two remainder asserts take
`dm.m() % blocksize` and `dm.n() % blocksize` (UB when `blocksize` is 0),
then each block index expands to `blocksize` consecutive scalar indices. -/
def add_block_matrix (dm : DenseMat) (brows bcols : List ℕ) : BlockResult :=
  if brows.length = 0 ∨ bcols.length = 0 then BlockResult.ub
  else if dm.m / brows.length ≠ dm.n / bcols.length then BlockResult.assertFail
  else if dm.m / brows.length = 0 then BlockResult.ub
  else if dm.m % (dm.m / brows.length) ≠ 0 then BlockResult.assertFail
  else if dm.n % (dm.m / brows.length) ≠ 0 then BlockResult.assertFail
  else
    BlockResult.ok dm
      (brows.flatMap fun r =>
        (List.range (dm.m / brows.length)).map fun v => r * (dm.m / brows.length) + v)
      (bcols.flatMap fun c =>
        (List.range (dm.m / brows.length)).map fun v => c * (dm.m / brows.length) + v)

/-! ### Distributed print, real scalars (sparse_matrix.C lines 224-345)

The model takes the root's point of view: `nProc` ranked processes, row
ownership `[fd p, ed p)` per rank from the DofMap, matrix shape `m × n`, and
global element access `A` (the code assumes each process can read its own
rows). Each non-root rank sends its nonzero triplets; the root emits its own
rows, drains ranks `1..nProc-1` in order, and (dense mode only) pads trailing
rows with zeros. A line of dense output is its list of fields (`List ℚ`); a
line of sparse output is a `(row, col, value)` triplet. -/

abbrev Trip : Type := ℕ × ℕ × ℚ

structure PrintSetup where
  nProc : ℕ
  fd : ℕ → ℕ
  ed : ℕ → ℕ
  m : ℕ
  n : ℕ
  A : ℕ → ℕ → ℚ
  initialized : Bool
  hasDofMap : Bool

/-- Translation of the non-root branch (lines 320-344): for each locally
owned row `i ∈ [fd, ed)` and column `j < n`, push `(i, j, c)` exactly when
`c = A i j` is nonzero. The three parallel vectors `ibuf/jbuf/cbuf` are
modelled as one list of triplets (they are pushed in lockstep, so the
size-equality asserts at lines 268-269 hold by construction). -/
def sendBuf (fd ed n : ℕ) (A : ℕ → ℕ → ℚ) : List Trip :=
  (List.range' fd (ed - fd)).flatMap fun i =>
    (List.range n).filterMap fun j =>
      if A i j ≠ 0 then some (i, j, A i j) else none

/-- Root's own rows in dense mode (lines 252-257): every column value,
including explicit zeros. -/
def ownDense (fd ed n : ℕ) (A : ℕ → ℕ → ℚ) : List (List ℚ) :=
  (List.range' fd (ed - fd)).map fun i => (List.range n).map fun j => A i j

/-- Root's own rows in sparse mode (lines 241-250): triplet `(i, j, c)`
exactly for the nonzero entries, in row-major order. -/
def ownSparse (fd ed n : ℕ) (A : ℕ → ℕ → ℚ) : List Trip :=
  (List.range' fd (ed - fd)).flatMap fun i =>
    (List.range n).filterMap fun j =>
      if A i j ≠ 0 then some (i, j, A i j) else none

/-- Inner column walk of the dense receive loop (lines 294-306): for each
column `j` emit the buffered value when the cursor `(i, j)` matches the next
unconsumed triplet, else an explicit zero; returns the fields of the line and
the unconsumed remainder of the buffer. -/
def denseFields (i : ℕ) : List ℕ → List Trip → List ℚ × List Trip
  | [], buf => ([], buf)
  | _ :: js, [] =>
      let r := denseFields i js []
      ((0 : ℚ) :: r.1, r.2)
  | j :: js, t :: ts =>
      if t.1 = i ∧ t.2.1 = j then
        let r := denseFields i js ts
        (t.2.2 :: r.1, r.2)
      else
        let r := denseFields i js (t :: ts)
        ((0 : ℚ) :: r.1, r.2)

/-- Row sweep of the dense receive loop (`for (; currenti <= ibuf.back(); ++currenti)`,
line 277, dense branch): one output line per row index. -/
def denseRows (n : ℕ) : List ℕ → List Trip → List (List ℚ)
  | [], _ => []
  | i :: is, buf =>
      let r := denseFields i (List.range n) buf
      r.1 :: denseRows n is r.2

/-- Inner column walk of the sparse receive loop (lines 281-290): emit the
next unconsumed triplet when it matches the cursor `(i, j)`. -/
def sparseRow (i : ℕ) : List ℕ → List Trip → List Trip × List Trip
  | [], buf => ([], buf)
  | _ :: js, [] => sparseRow i js []
  | j :: js, t :: ts =>
      if t.1 = i ∧ t.2.1 = j then
        let r := sparseRow i js ts
        (t :: r.1, r.2)
      else sparseRow i js (t :: ts)

/-- Row sweep of the sparse receive loop. -/
def sparseRows (n : ℕ) : List ℕ → List Trip → List Trip
  | [], _ => []
  | i :: is, buf =>
      let r := sparseRow i (List.range n) buf
      r.1 ++ sparseRows n is r.2

/-- Receive loop of the root, dense branch (lines 260-309): one buffer per
rank in increasing rank order; an empty buffer is skipped with no check
(line 271-272); for a non-empty buffer the asserts at lines 273-274 require
`ibuf.front() ≥ currenti` and `ibuf.back() ≥ ibuf.front()` (`none` on
violation), then rows `currenti .. ibuf.back()` are emitted and the cursor
advances to `ibuf.back() + 1`. Returns the emitted lines and final cursor. -/
def recvLoopDense (n : ℕ) : List (List Trip) → ℕ → Option (List (List ℚ) × ℕ)
  | [], cur => some ([], cur)
  | buf :: bufs, cur =>
      match buf with
      | [] => recvLoopDense n bufs cur
      | t :: ts =>
          let back := (ts.getLastD t).1
          if cur ≤ t.1 ∧ t.1 ≤ back then
            match recvLoopDense n bufs (back + 1) with
            | some (ls, cur2) =>
                some (denseRows n (List.range' cur (back + 1 - cur)) (t :: ts) ++ ls, cur2)
            | none => none
          else none

/-- Receive loop of the root, sparse branch: same control flow as
`recvLoopDense`, emitting matching triplets instead of full lines. -/
def recvLoopSparse (n : ℕ) : List (List Trip) → ℕ → Option (List Trip × ℕ)
  | [], cur => some ([], cur)
  | buf :: bufs, cur =>
      match buf with
      | [] => recvLoopSparse n bufs cur
      | t :: ts =>
          let back := (ts.getLastD t).1
          if cur ≤ t.1 ∧ t.1 ≤ back then
            match recvLoopSparse n bufs (back + 1) with
            | some (ls, cur2) =>
                some (sparseRows n (List.range' cur (back + 1 - cur)) (t :: ts) ++ ls, cur2)
            | none => none
          else none

/-- Chain condition on the per-rank ownership intervals seen by the receive
loop: the cursor is at most the first interval's lower bound, and each
interval's upper bound is at most the next one's lower bound. -/
def bndChain : ℕ → List (ℕ × ℕ) → Prop
  | _, [] => True
  | c, b :: bs => c ≤ b.1 ∧ bndChain b.2 bs

/-- Dense-mode print as observed at the root (lines 224-319): the
`libmesh_assert (this->initialized())` and missing-DofMap error guards, the
root-rank assert `first_dof() == 0` (line 237), the root's own rows, the
receive loop over ranks `1..nProc-1` fed with each rank's `sendBuf`, and the
trailing all-zero padding up to row `m` (lines 310-318; the C++ loop
`for (; currenti != m; ++currenti)` terminates only when the cursor is at
most `m`, which the theorems' partition hypotheses guarantee). -/
def printDense (s : PrintSetup) : Option (List (List ℚ)) :=
  if s.initialized = true then
    if s.hasDofMap = true then
      if s.fd 0 = 0 then
        match recvLoopDense s.n
            ((List.range' 1 (s.nProc - 1)).map fun p => sendBuf (s.fd p) (s.ed p) s.n s.A)
            (s.ed 0) with
        | some (ls, cur) =>
            some (ownDense (s.fd 0) (s.ed 0) s.n s.A ++ ls ++
              (List.range' cur (s.m - cur)).map fun _ => (List.range s.n).map fun _ => (0 : ℚ))
        | none => none
      else none
    else none
  else none

/-- Sparse-mode print as observed at the root: same guards and receive
protocol, no trailing padding. -/
def printSparse (s : PrintSetup) : Option (List Trip) :=
  if s.initialized = true then
    if s.hasDofMap = true then
      if s.fd 0 = 0 then
        match recvLoopSparse s.n
            ((List.range' 1 (s.nProc - 1)).map fun p => sendBuf (s.fd p) (s.ed p) s.n s.A)
            (s.ed 0) with
        | some (ls, _) => some (ownSparse (s.fd 0) (s.ed 0) s.n s.A ++ ls)
        | none => none
      else none
    else none
  else none

/-! ### SparseMatrix<Complex>::print (sparse_matrix.C lines 116-141) -/

/-- Complex scalars as real/imaginary pairs of exact values. -/
abbrev Cx : Type := ℚ × ℚ

/-- Output line of the complex print: a text label, the blank line produced
by the bare `std::endl`, or a row of numeric fields. -/
inductive CLine
  | label (s : String)
  | blank
  | row (fields : List ℚ)
  deriving DecidableEq

/-- Translation of the `SparseMatrix<Complex>::print` specialization
(lines 116-141): sparse mode is `libmesh_not_implemented()`; dense mode
iterates the full `m × n` shape locally (no gather), emitting the real-part
block then a blank line and the imaginary-part block. -/
def printComplex (sparse : Bool) (m n : ℕ) (A : ℕ → ℕ → Cx) : Option (List CLine) :=
  if sparse then none
  else
    some (CLine.label "Real part:" ::
      (((List.range m).map fun i => CLine.row ((List.range n).map fun j => (A i j).1)) ++
        CLine.blank :: CLine.label "Imaginary part:" ::
          ((List.range m).map fun i => CLine.row ((List.range n).map fun j => (A i j).2))))

/-! ### Helper lemmas -/

theorem pairwise_of_total {α : Type} {R : α → α → Prop} (h : ∀ a b, R a b) :
    ∀ l : List α, l.Pairwise R
  | [] => List.Pairwise.nil
  | a :: l => List.Pairwise.cons (fun b _ => h a b) (pairwise_of_total h l)

/-- Every triplet collected for row `r` carries row index `r`, a column below
`n`, and the matrix value at its position. -/
theorem collect_mem {n : ℕ} {A : ℕ → ℕ → ℚ} {r : ℕ} {x : Trip}
    (hx : x ∈ (List.range n).filterMap fun c =>
      if A r c ≠ 0 then some (r, c, A r c) else none) :
    x.1 = r ∧ x.2.1 < n ∧ x.2.2 = A r x.2.1 ∧ A r x.2.1 ≠ 0 := by
  rcases List.mem_filterMap.1 hx with ⟨c, hc, hsome⟩
  by_cases hz : A r c ≠ 0
  · rw [if_pos hz] at hsome
    cases hsome
    exact ⟨rfl, List.mem_range.1 hc, rfl, hz⟩
  · rw [if_neg hz] at hsome
    cases hsome

theorem sendBuf_row_mem {fd ed n : ℕ} {A : ℕ → ℕ → ℚ} {x : Trip}
    (hx : x ∈ sendBuf fd ed n A) : fd ≤ x.1 ∧ x.1 < ed := by
  rcases List.mem_flatMap.1 hx with ⟨r, hr, hmem⟩
  rcases List.mem_range'_1.1 hr with ⟨h1, h2⟩
  have := (collect_mem hmem).1
  omega

theorem sendBuf_pairwise (fd ed n : ℕ) (A : ℕ → ℕ → ℚ) :
    List.Pairwise (fun a b : Trip => a.1 ≤ b.1) (sendBuf fd ed n A) := by
  unfold sendBuf
  rw [List.pairwise_flatMap]
  constructor
  · intro r _
    rw [List.pairwise_filterMap]
    refine pairwise_of_total (fun a b => ?_) _
    intro x hx y hy
    split at hx
    · cases hx
      split at hy
      · cases hy; exact le_refl _
      · cases hy
    · cases hx
  · have hr : List.Pairwise (· ≤ ·) (List.range' fd (ed - fd)) := by
      rw [List.pairwise_iff_getElem]
      intro a b ha hb hab
      simp only [List.getElem_range']
      omega
    refine hr.imp_of_mem ?_
    intro r1 r2 _ _ hle x hx y hy
    have h1 := (collect_mem hx).1
    have h2 := (collect_mem hy).1
    omega

theorem getLastD_mem_cons {α : Type} : ∀ (ts : List α) (t : α), ts.getLastD t ∈ t :: ts
  | [], _ => List.mem_cons_self _ _
  | a :: as, t => by
      rw [List.getLastD_cons]
      exact List.mem_cons_of_mem t (getLastD_mem_cons as a)

theorem head_le_getLastD : ∀ (ts : List Trip) (t : Trip),
    List.Pairwise (fun a b : Trip => a.1 ≤ b.1) (t :: ts) → t.1 ≤ (ts.getLastD t).1
  | [], _, _ => le_refl _
  | a :: as, t, h => by
      rw [List.getLastD_cons]
      have h1 : t.1 ≤ a.1 := (List.pairwise_cons.1 h).1 a (List.mem_cons_self _ _)
      have h2 := head_le_getLastD as a (List.pairwise_cons.1 h).2
      omega

theorem bndChain_mono : ∀ {bs : List (ℕ × ℕ)} {c c2 : ℕ},
    c2 ≤ c → bndChain c bs → bndChain c2 bs
  | [], _, _, _, _ => trivial
  | _ :: _, _, _, h, hb => ⟨le_trans h hb.1, hb.2⟩

theorem bndChain_ranges (fd ed : ℕ → ℕ) :
    ∀ (k p c : ℕ), (1 ≤ k → c ≤ fd p) →
      (∀ q, p ≤ q → q + 1 < p + k → ed q ≤ fd (q + 1)) →
      bndChain c ((List.range' p k).map fun q => (fd q, ed q)) := by
  intro k
  induction k with
  | zero => intro p c _ _; trivial
  | succ k ih =>
      intro p c hc h2
      rw [List.range'_succ, List.map_cons]
      refine ⟨hc (by omega), ?_⟩
      cases k with
      | zero => trivial
      | succ k2 =>
          exact ih (p + 1) (ed p)
            (fun _ => h2 p (le_refl p) (by omega))
            (fun q hq hlt => h2 q (by omega) (by omega))

theorem denseFields_length (i : ℕ) :
    ∀ (js : List ℕ) (buf : List Trip), (denseFields i js buf).1.length = js.length
  | [], _ => rfl
  | _ :: js, [] => by
      simp only [denseFields, List.length_cons]
      rw [denseFields_length i js []]
  | j :: js, t :: ts => by
      simp only [denseFields]
      split
      · simp only [List.length_cons]
        rw [denseFields_length i js ts]
      · simp only [List.length_cons]
        rw [denseFields_length i js (t :: ts)]

theorem denseRows_length (n : ℕ) :
    ∀ (is : List ℕ) (buf : List Trip), (denseRows n is buf).length = is.length
  | [], _ => rfl
  | _ :: is, buf => by
      simp only [denseRows, List.length_cons]
      rw [denseRows_length n is]

theorem denseRows_fields (n : ℕ) :
    ∀ (is : List ℕ) (buf : List Trip) (l : List ℚ),
      l ∈ denseRows n is buf → l.length = n
  | [], _, _, h => absurd h (List.not_mem_nil _)
  | i :: is, buf, l, h => by
      rcases List.mem_cons.1 h with h1 | h2
      · rw [h1, denseFields_length]
        exact List.length_range n
      · exact denseRows_fields n is _ l h2

theorem recvLoopDense_nil_buf (n : ℕ) (bufs : List (List Trip)) (cur : ℕ) :
    recvLoopDense n ([] :: bufs) cur = recvLoopDense n bufs cur := rfl

theorem recvLoopSparse_nil_buf (n : ℕ) (bufs : List (List Trip)) (cur : ℕ) :
    recvLoopSparse n ([] :: bufs) cur = recvLoopSparse n bufs cur := rfl

theorem recvLoopDense_cons_buf (n : ℕ) (t : Trip) (ts : List Trip)
    (bufs : List (List Trip)) (cur : ℕ) :
    recvLoopDense n ((t :: ts) :: bufs) cur =
      (if cur ≤ t.1 ∧ t.1 ≤ (ts.getLastD t).1 then
        match recvLoopDense n bufs ((ts.getLastD t).1 + 1) with
        | some (ls, cur2) =>
            some (denseRows n (List.range' cur ((ts.getLastD t).1 + 1 - cur)) (t :: ts) ++ ls,
              cur2)
        | none => none
      else none) := rfl

theorem recvLoopSparse_cons_buf (n : ℕ) (t : Trip) (ts : List Trip)
    (bufs : List (List Trip)) (cur : ℕ) :
    recvLoopSparse n ((t :: ts) :: bufs) cur =
      (if cur ≤ t.1 ∧ t.1 ≤ (ts.getLastD t).1 then
        match recvLoopSparse n bufs ((ts.getLastD t).1 + 1) with
        | some (ls, cur2) =>
            some (sparseRows n (List.range' cur ((ts.getLastD t).1 + 1 - cur)) (t :: ts) ++ ls,
              cur2)
        | none => none
      else none) := rfl

/-- Totality and shape of the dense receive loop: if every rank's buffer
stays inside that rank's ownership interval and is sorted by row, and the
intervals are chained above the initial cursor, then all ordering asserts
pass, exactly one dense line is emitted per cursor increment, every line has
`n` fields, and the final cursor stays at most `M`. -/
theorem recvLoopDense_spec (n : ℕ) :
    ∀ (pairs : List ((ℕ × ℕ) × List Trip)) (cur M : ℕ),
      (∀ pb ∈ pairs, (∀ x ∈ pb.2, pb.1.1 ≤ x.1 ∧ x.1 < pb.1.2) ∧
        List.Pairwise (fun a b : Trip => a.1 ≤ b.1) pb.2 ∧ pb.1.1 ≤ pb.1.2) →
      bndChain cur (pairs.map Prod.fst) →
      (∀ pb ∈ pairs, pb.1.2 ≤ M) →
      cur ≤ M →
      ∃ ls cur2, recvLoopDense n (pairs.map Prod.snd) cur = some (ls, cur2) ∧
        cur + ls.length = cur2 ∧ cur ≤ cur2 ∧ cur2 ≤ M ∧
        ∀ l ∈ ls, l.length = n := by
  intro pairs
  induction pairs with
  | nil =>
      intro cur M _ _ _ hcM
      exact ⟨[], cur, rfl, by simp, le_refl _, hcM, by simp⟩
  | cons pb rest ih =>
      intro cur M hok hchain hM hcM
      obtain ⟨⟨lo, hi⟩, buf⟩ := pb
      have hokh := hok _ (List.mem_cons_self _ _)
      obtain ⟨hbnd, hpw, hlohi⟩ := hokh
      have hchain1 : cur ≤ lo := hchain.1
      have hchain2 : bndChain hi (rest.map Prod.fst) := hchain.2
      have hMh : hi ≤ M := hM _ (List.mem_cons_self _ _)
      cases buf with
      | nil =>
          rw [List.map_cons, recvLoopDense_nil_buf]
          exact ih cur M (fun pb h => hok pb (List.mem_cons_of_mem _ h))
            (bndChain_mono (le_trans hchain1 hlohi) hchain2)
            (fun pb h => hM pb (List.mem_cons_of_mem _ h)) hcM
      | cons t ts =>
          have hfront : lo ≤ t.1 ∧ t.1 < hi := hbnd t (List.mem_cons_self _ _)
          have hback : lo ≤ (ts.getLastD t).1 ∧ (ts.getLastD t).1 < hi :=
            hbnd _ (getLastD_mem_cons ts t)
          have hfb : t.1 ≤ (ts.getLastD t).1 := head_le_getLastD ts t hpw
          obtain ⟨ls2, cur2, heq2, hlen2, hle2, hM2, hfield2⟩ :=
            ih ((ts.getLastD t).1 + 1) M
              (fun pb h => hok pb (List.mem_cons_of_mem _ h))
              (bndChain_mono (by omega) hchain2)
              (fun pb h => hM pb (List.mem_cons_of_mem _ h))
              (by omega)
          refine ⟨denseRows n (List.range' cur ((ts.getLastD t).1 + 1 - cur)) (t :: ts) ++ ls2,
            cur2, ?_, ?_, ?_, hM2, ?_⟩
          · rw [List.map_cons, recvLoopDense_cons_buf, if_pos ⟨by omega, hfb⟩, heq2]
          · rw [List.length_append, denseRows_length, List.length_range']
            omega
          · omega
          · intro l hl
            rcases List.mem_append.1 hl with h1 | h2
            · exact denseRows_fields n _ _ l h1
            · exact hfield2 l h2

theorem flatMap_const_length {α β : Type} (f : α → List β) (k : ℕ)
    (h : ∀ a, (f a).length = k) :
    ∀ l : List α, (l.flatMap f).length = l.length * k
  | [] => by simp
  | a :: l => by
      rw [List.flatMap_cons, List.length_append, h a, flatMap_const_length f k h l,
        List.length_cons]
      ring

/-! ### Claim theorems -/

/-- C5: for every vendor tag and every compiled-in configuration, calling the
builder with matrix build type DIAGONAL returns the diagonal-only backend
variant; vendor dispatch is bypassed, so the vendor tag (and the set of
compiled-in vendors) is never consulted. -/
theorem C5_diagonal_override (cfg : BuildConfig) (sp : SolverPackage) :
    build cfg sp MatrixBuildType.DIAGONAL = Except.ok BackendKind.DiagonalMatrix := rfl

/-- C6: with build type AUTOMATIC, every vendor tag whose case is compiled
into the build yields a successfully constructed instance of the matching
backend variant; every unrecognized or not-compiled-in tag fails at
construction time with the error message naming that tag (the message
determines the tag uniquely). -/
theorem C6_automatic_dispatch (cfg : BuildConfig) (sp : SolverPackage) :
    (compiledIn cfg sp = true →
      build cfg sp MatrixBuildType.AUTOMATIC = Except.ok (backendFor sp)) ∧
    (compiledIn cfg sp = false →
      build cfg sp MatrixBuildType.AUTOMATIC = Except.error (buildErrMsg sp)) ∧
    (∀ sp2, buildErrMsg sp = buildErrMsg sp2 → sp = sp2) := by
  refine ⟨?_, ?_, ?_⟩
  · intro h
    cases sp <;> simp_all [compiledIn, build, backendFor]
  · intro h
    cases sp <;> simp_all [compiledIn, build]
  · intro sp2
    revert sp2
    revert sp
    decide

/-- Witness for C6: with all vendors compiled in, the LASPACK tag builds the
LASPACK backend; with none compiled in, the same tag is a fatal
configuration error naming the tag. -/
theorem C6_witness :
    build ⟨true, true, true, true⟩ SolverPackage.LASPACK_SOLVERS MatrixBuildType.AUTOMATIC =
      Except.ok BackendKind.LaspackMatrix ∧
    build ⟨false, false, false, false⟩ SolverPackage.LASPACK_SOLVERS MatrixBuildType.AUTOMATIC =
      Except.error (buildErrMsg SolverPackage.LASPACK_SOLVERS) :=
  ⟨(C6_automatic_dispatch ⟨true, true, true, true⟩ SolverPackage.LASPACK_SOLVERS).1 rfl,
   (C6_automatic_dispatch ⟨false, false, false, false⟩ SolverPackage.LASPACK_SOLVERS).2.1 rfl⟩

/-- C7: attach_dof_map always overwrites the DofMap reference and pulls a
sparsity pattern from the DofMap only when none is attached (a non-null `_sp`
is never replaced), attach_sparsity_pattern unconditionally overwrites the
sparsity reference, and neither operation changes any other field. -/
theorem C7_attach (st : SMState) (dm : DofMap) (spTok : ℕ) :
    ((attach_dof_map st dm).dof_map = some dm) ∧
    (st.sp ≠ none → attach_dof_map st dm = { st with dof_map := some dm }) ∧
    (st.sp = none →
      attach_dof_map st dm = { st with dof_map := some dm, sp := dm.get_sparsity_pattern }) ∧
    ((attach_dof_map st dm).initialized = st.initialized) ∧
    ((attach_sparsity_pattern st spTok).sp = some spTok) ∧
    ((attach_sparsity_pattern st spTok).dof_map = st.dof_map) ∧
    ((attach_sparsity_pattern st spTok).initialized = st.initialized) := by
  obtain ⟨dmp, sp0, ini⟩ := st
  refine ⟨?_, ?_, ?_, ?_, rfl, rfl, rfl⟩ <;> cases sp0 <;> simp [attach_dof_map]

/-- Witness for C7: a state with an attached pattern keeps it through
attach_dof_map; a state without one pulls the DofMap's pattern. -/
theorem C7_witness :
    attach_dof_map ⟨none, some 7, true⟩ ⟨some 9⟩ = ⟨some ⟨some 9⟩, some 7, true⟩ ∧
    attach_dof_map ⟨none, none, false⟩ ⟨some 9⟩ = ⟨some ⟨some 9⟩, some 9, false⟩ := by
  have h1 := (C7_attach ⟨none, some 7, true⟩ ⟨some 9⟩ 0).2.1 (by simp)
  have h3 := (C7_attach ⟨none, none, false⟩ ⟨some 9⟩ 0).2.2.1 rfl
  exact ⟨h1, h3⟩

/-- C8: for complex scalars, sparse-mode print fails fatally (not
implemented); dense mode emits the line "Real part:", an m-by-n block of the
real parts, a blank line and "Imaginary part:", then an m-by-n block of the
imaginary parts, all by local row/column iteration (no gather protocol
appears in the definition). -/
theorem C8_complex_print (m n : ℕ) (A : ℕ → ℕ → Cx) :
    printComplex true m n A = none ∧
    ∃ realRows imagRows,
      printComplex false m n A =
        some (CLine.label "Real part:" ::
          (realRows ++ CLine.blank :: CLine.label "Imaginary part:" :: imagRows)) ∧
      realRows.length = m ∧ imagRows.length = m ∧
      (∀ i, i < m → realRows[i]? =
        some (CLine.row ((List.range n).map fun j => (A i j).1))) ∧
      (∀ i, i < m → imagRows[i]? =
        some (CLine.row ((List.range n).map fun j => (A i j).2))) ∧
      (∀ fs : List ℚ, CLine.row fs ∈
          CLine.label "Real part:" ::
            (realRows ++ CLine.blank :: CLine.label "Imaginary part:" :: imagRows) →
        fs.length = n) := by
  refine ⟨rfl, (List.range m).map fun i => CLine.row ((List.range n).map fun j => (A i j).1),
    (List.range m).map fun i => CLine.row ((List.range n).map fun j => (A i j).2),
    rfl, by simp, by simp, ?_, ?_, ?_⟩
  · intro i hi
    simp [List.getElem?_map, List.getElem?_range, hi]
  · intro i hi
    simp [List.getElem?_map, List.getElem?_range, hi]
  · intro fs hfs
    rcases List.mem_cons.1 hfs with h | h
    · cases h
    rcases List.mem_append.1 h with h | h
    · rcases List.mem_map.1 h with ⟨i, _, heq⟩
      injection heq with h2
      rw [← h2]
      simp
    rcases List.mem_cons.1 h with h | h
    · cases h
    rcases List.mem_cons.1 h with h | h
    · cases h
    rcases List.mem_map.1 h with ⟨i, _, heq⟩
    injection heq with h2
    rw [← h2]
    simp

/-- Witness for C8: a 1-by-1 complex matrix with entry 1+2i. -/
theorem C8_witness :
    printComplex true 1 1 (fun _ _ => ((1 : ℚ), (2 : ℚ))) = none ∧
    (printComplex false 1 1 (fun _ _ => ((1 : ℚ), (2 : ℚ)))).isSome = true := by
  obtain ⟨h1, realRows, imagRows, heq, _⟩ := C8_complex_print 1 1 (fun _ _ => (1, 2))
  exact ⟨h1, by rw [heq]; rfl⟩

/-- Counterexample to C3 as stated: the degenerate 0-by-0 element matrix with
one block row and one block column satisfies all three stated preconditions
(0 % 1 = 0 and 0/1 = 0/1), yet the code computes blocksize 0 and the
remainder asserts take a modulo by zero (C++ undefined behaviour) instead of
building length-0 index sequences and delegating. -/
theorem C3_counterexample :
    (0 : ℕ) % ([0] : List ℕ).length = 0 ∧
    (0 : ℕ) / ([0] : List ℕ).length = (0 : ℕ) / ([0] : List ℕ).length ∧
    add_block_matrix ⟨0, 0, fun _ _ => 0⟩ [0] [0] = BlockResult.ub :=
  ⟨rfl, rfl, rfl⟩

/-- C3 (amended): for every element matrix and block index sequences with
`R % br = 0`, `C % bc = 0`, `R/br = C/bc` and additionally blocksize
`R/br ≥ 1`, add_block_matrix passes all asserts and delegates to add_matrix
with the original dense data unrearranged and with scalar index sequences of
lengths R and C in which each block index `r` expands to `blocksize`
consecutive indices starting at `r * blocksize`, concatenated in the order
the block indices were supplied. -/
theorem C3_block_expansion (dm : DenseMat) (brows bcols : List ℕ)
    (hmr : dm.m % brows.length = 0) (hnc : dm.n % bcols.length = 0)
    (hdiv : dm.m / brows.length = dm.n / bcols.length)
    (hbs : 1 ≤ dm.m / brows.length) :
    ∃ rows cols, add_block_matrix dm brows bcols = BlockResult.ok dm rows cols ∧
      rows.length = dm.m ∧ cols.length = dm.n ∧
      rows = brows.flatMap
        (fun r => List.range' (r * (dm.m / brows.length)) (dm.m / brows.length)) ∧
      cols = bcols.flatMap
        (fun c => List.range' (c * (dm.m / brows.length)) (dm.m / brows.length)) := by
  have hbr0 : brows.length ≠ 0 := by
    intro h
    rw [h] at hbs
    simp at hbs
  have hbc0 : bcols.length ≠ 0 := by
    intro h
    rw [h] at hdiv
    rw [hdiv] at hbs
    simp at hbs
  have hmdvd : brows.length ∣ dm.m := Nat.dvd_of_mod_eq_zero hmr
  have hndvd : bcols.length ∣ dm.n := Nat.dvd_of_mod_eq_zero hnc
  have hmm : dm.m / brows.length * brows.length = dm.m := Nat.div_mul_cancel hmdvd
  have hnn : dm.n / bcols.length * bcols.length = dm.n := Nat.div_mul_cancel hndvd
  have hms : dm.m % (dm.m / brows.length) = 0 :=
    Nat.mod_eq_zero_of_dvd ⟨brows.length, hmm.symm⟩
  have hns : dm.n % (dm.m / brows.length) = 0 :=
    Nat.mod_eq_zero_of_dvd ⟨bcols.length, by rw [hdiv]; exact hnn.symm⟩
  have hform : ∀ (l : List ℕ),
      (l.flatMap fun r =>
        (List.range (dm.m / brows.length)).map fun v => r * (dm.m / brows.length) + v) =
      l.flatMap fun r => List.range' (r * (dm.m / brows.length)) (dm.m / brows.length) := by
    intro l
    congr 1
    funext r
    rw [List.range'_eq_map_range]
  have hlen : ∀ (l : List ℕ),
      (l.flatMap fun r =>
        (List.range (dm.m / brows.length)).map fun v => r * (dm.m / brows.length) + v).length =
      l.length * (dm.m / brows.length) :=
    flatMap_const_length _ _ (fun a => by simp)
  refine ⟨_, _, ?_, ?_, ?_, hform brows, hform bcols⟩
  · unfold add_block_matrix
    rw [if_neg (by tauto), if_neg (by simp [hdiv]), if_neg (by omega),
      if_neg (by simp [hms]), if_neg (by simp [hns])]
  · rw [hlen brows, Nat.mul_comm]
    exact hmm
  · rw [hlen bcols, hdiv, Nat.mul_comm]
    exact hnn

/-- Witness for C3 (amended): a 4-by-4 element matrix with block rows
`[3, 1]` and block columns `[2, 0]` (blocksize 2) expands to scalar rows
`[6, 7, 2, 3]` and scalar columns `[4, 5, 0, 1]` and is handed unchanged to
add_matrix. -/
theorem C3_witness :
    add_block_matrix ⟨4, 4, fun _ _ => 0⟩ [3, 1] [2, 0] =
      BlockResult.ok ⟨4, 4, fun _ _ => 0⟩ [6, 7, 2, 3] [4, 5, 0, 1] := by
  obtain ⟨rows, cols, hok, _, _, hrw, hcw⟩ :=
    C3_block_expansion ⟨4, 4, fun _ _ => 0⟩ [3, 1] [2, 0]
      (by decide) (by decide) (by decide) (by decide)
  rw [hok, hrw, hcw]
  rfl

/-- Counterexample to C4 as stated: for the 6-by-6 element matrix with four
block rows and four block columns, `R % br = 6 % 4 = 2 ≠ 0`, yet the code
does not reject: blocksize is `6/4 = 1`, both remainder asserts check
`6 % 1 = 0`, and the call succeeds, expanding each block index to a single
scalar index (a silently truncated expansion of 4 scalar rows for a 6-row
matrix). -/
theorem C4_counterexample :
    (6 : ℕ) % ([0, 1, 2, 3] : List ℕ).length ≠ 0 ∧
    add_block_matrix ⟨6, 6, fun _ _ => 0⟩ [0, 1, 2, 3] [0, 1, 2, 3] =
      BlockResult.ok ⟨6, 6, fun _ _ => 0⟩ [0, 1, 2, 3] [0, 1, 2, 3] :=
  ⟨by decide, rfl⟩

/-- C4 (amended): with non-empty block index sequences, add_block_matrix
fatally rejects every input where `R/br ≠ C/bc`; and when `R/br = C/bc` with
blocksize `R/br ≥ 1`, it fatally rejects every input where
`R % blocksize ≠ 0` or `C % blocksize ≠ 0` — the remainder preconditions are
taken modulo the blocksize, not modulo the block counts. -/
theorem C4_block_reject (dm : DenseMat) (brows bcols : List ℕ)
    (hbr : brows ≠ []) (hbc : bcols ≠ []) :
    (dm.m / brows.length ≠ dm.n / bcols.length →
      add_block_matrix dm brows bcols = BlockResult.assertFail) ∧
    (dm.m / brows.length = dm.n / bcols.length → 1 ≤ dm.m / brows.length →
      (dm.m % (dm.m / brows.length) ≠ 0 ∨ dm.n % (dm.m / brows.length) ≠ 0) →
      add_block_matrix dm brows bcols = BlockResult.assertFail) := by
  have hbr0 : brows.length ≠ 0 := by simpa [List.length_eq_zero] using hbr
  have hbc0 : bcols.length ≠ 0 := by simpa [List.length_eq_zero] using hbc
  constructor
  · intro hne
    unfold add_block_matrix
    rw [if_neg (by tauto), if_pos hne]
  · intro heq hbs hrem
    unfold add_block_matrix
    rw [if_neg (by tauto), if_neg (by simp [heq]), if_neg (by omega)]
    rcases hrem with h | h
    · rw [if_pos h]
    · by_cases h2 : dm.m % (dm.m / brows.length) ≠ 0
      · rw [if_pos h2]
      · rw [if_neg h2, if_pos h]

/-- Witness for C4 (amended): a 4-by-9 matrix with two block rows/columns
has `4/2 = 2 ≠ 4 = 9/2` (rejected); a 5-by-5 matrix with two block
rows/columns has blocksize 2 and `5 % 2 ≠ 0` (rejected). -/
theorem C4_witness :
    add_block_matrix ⟨4, 9, fun _ _ => 0⟩ [0, 1] [0, 1] = BlockResult.assertFail ∧
    add_block_matrix ⟨5, 5, fun _ _ => 0⟩ [0, 1] [0, 1] = BlockResult.assertFail :=
  ⟨(C4_block_reject ⟨4, 9, fun _ _ => 0⟩ [0, 1] [0, 1] (by decide) (by decide)).1
      (by decide),
   (C4_block_reject ⟨5, 5, fun _ _ => 0⟩ [0, 1] [0, 1] (by decide) (by decide)).2
      (by decide) (by decide) (Or.inl (by decide))⟩

/-- Counterexample to C9 as stated: for the 1-by-5 element matrix with two
block rows and two block columns, `dm.m() < brows.size()` (blocksize 0), yet
no modulo by zero is taken: the first precondition assertion compares
`1/2 = 0` with `5/2 = 2` and rejects the input before the remainder checks
are evaluated. -/
theorem C9_counterexample :
    (1 : ℕ) < ([0, 1] : List ℕ).length ∧
    add_block_matrix ⟨1, 5, fun _ _ => 0⟩ [0, 1] [0, 1] = BlockResult.assertFail :=
  ⟨by decide, rfl⟩

/-- C9 (amended): add_block_matrix completes normally only when brows is
non-empty and the computed blocksize `dm.m()/brows.size()` is at least 1; an
empty brows (or bcols) divides by zero evaluating the first assertion and
the blocksize; and when the blocksize is 0 and the division-equality
assertion passes, the remainder checks take a modulo by zero. -/
theorem C9_totality (dm : DenseMat) (brows bcols : List ℕ) :
    (∀ dm2 rows cols, add_block_matrix dm brows bcols = BlockResult.ok dm2 rows cols →
      brows ≠ [] ∧ 1 ≤ dm.m / brows.length) ∧
    (brows = [] ∨ bcols = [] → add_block_matrix dm brows bcols = BlockResult.ub) ∧
    (brows ≠ [] → bcols ≠ [] → dm.m / brows.length = dm.n / bcols.length →
      dm.m / brows.length = 0 → add_block_matrix dm brows bcols = BlockResult.ub) := by
  refine ⟨?_, ?_, ?_⟩
  · intro dm2 rows cols h
    unfold add_block_matrix at h
    split_ifs at h with h1 h2 h3 h4 h5
    cases h
    constructor
    · intro he
      exact h1 (Or.inl (by simp [he]))
    · exact Nat.one_le_iff_ne_zero.2 h3
  · intro h
    unfold add_block_matrix
    rw [if_pos (by rcases h with h | h <;> simp [h])]
  · intro hbr hbc heq h0
    have hbr0 : brows.length ≠ 0 := by simpa [List.length_eq_zero] using hbr
    have hbc0 : bcols.length ≠ 0 := by simpa [List.length_eq_zero] using hbc
    unfold add_block_matrix
    rw [if_neg (by tauto), if_neg (by simp [heq]), if_pos h0]

/-- Witness for C9 (amended): the 0-by-0 matrix with one block row/column
reaches the remainder checks with blocksize 0 (modulo by zero), and an empty
brows is an immediate division by zero. -/
theorem C9_witness :
    add_block_matrix ⟨0, 0, fun _ _ => 1⟩ [4] [4] = BlockResult.ub ∧
    add_block_matrix ⟨3, 3, fun _ _ => 1⟩ [] [0] = BlockResult.ub :=
  ⟨(C9_totality ⟨0, 0, fun _ _ => 1⟩ [4] [4]).2.2 (by decide) (by decide)
      (by decide) (by decide),
   (C9_totality ⟨3, 3, fun _ _ => 1⟩ [] [0]).2.1 (Or.inl rfl)⟩

/-- C2: during distributed printing, for every non-empty buffer the root
receives, the receive loop fatally enforces that the first received row
index is at least the cursor (one past the last row index already emitted)
and that the last received row index is at least the first; a buffer
violating either bound is an ordering-violation fault in both dense and
sparse modes, and an empty buffer is accepted and skipped without any
check. -/
theorem C2_receive_checks (n cur : ℕ) (t : Trip) (ts : List Trip)
    (bufs : List (List Trip)) :
    (¬ (cur ≤ t.1 ∧ t.1 ≤ (ts.getLastD t).1) →
      recvLoopDense n ((t :: ts) :: bufs) cur = none ∧
      recvLoopSparse n ((t :: ts) :: bufs) cur = none) ∧
    (recvLoopDense n ([] :: bufs) cur = recvLoopDense n bufs cur ∧
      recvLoopSparse n ([] :: bufs) cur = recvLoopSparse n bufs cur) := by
  refine ⟨fun h => ⟨?_, ?_⟩, rfl, rfl⟩
  · rw [recvLoopDense_cons_buf, if_neg h]
  · rw [recvLoopSparse_cons_buf, if_neg h]

/-- Witness for C2: a buffer whose first row index 3 lies below the cursor 5
is an ordering fault in both modes. -/
theorem C2_witness :
    recvLoopDense 1 [[((3 : ℕ), (0 : ℕ), (1 : ℚ))]] 5 = none ∧
    recvLoopSparse 1 [[((3 : ℕ), (0 : ℕ), (1 : ℚ))]] 5 = none :=
  (C2_receive_checks 1 5 (3, 0, 1) [] []).1 (by decide)

/-- C10: throughout printing, an in-range entry is treated as nonzero exactly
when its value differs from the scalar zero — there is no tolerance: an
entry enters a sender's transmit buffer, or the root's own sparse triplet
output, if and only if its exact value is nonzero; a stored exact zero is
never transmitted or emitted in sparse mode. -/
theorem C10_exact_zero_test (fd ed n : ℕ) (A : ℕ → ℕ → ℚ) (i j : ℕ)
    (h1 : fd ≤ i) (h2 : i < ed) (h3 : j < n) :
    (((i, j, A i j) ∈ sendBuf fd ed n A) ↔ A i j ≠ 0) ∧
    (((i, j, A i j) ∈ ownSparse fd ed n A) ↔ A i j ≠ 0) := by
  have key : ((i, j, A i j) ∈ (List.range' fd (ed - fd)).flatMap fun r =>
      (List.range n).filterMap fun c => if A r c ≠ 0 then some (r, c, A r c) else none) ↔
      A i j ≠ 0 := by
    constructor
    · intro hm
      rcases List.mem_flatMap.1 hm with ⟨r, _, hmem⟩
      have h4 := collect_mem hmem
      have h5 : i = r := h4.1
      rw [h5]
      exact h4.2.2.2
    · intro hz
      refine List.mem_flatMap.2 ⟨i, List.mem_range'_1.2 ⟨h1, by omega⟩, ?_⟩
      exact List.mem_filterMap.2 ⟨j, List.mem_range.2 h3, by rw [if_pos hz]⟩
  exact ⟨key, key⟩

/-- Witness for C10: the single entry of a 1-by-1 matrix with value 1 is
collected and emitted exactly because 1 is nonzero. -/
theorem C10_witness :
    (((0, 0, (1 : ℚ)) ∈ sendBuf 0 1 1 fun _ _ => 1) ↔ (1 : ℚ) ≠ 0) ∧
    (((0, 0, (1 : ℚ)) ∈ ownSparse 0 1 1 fun _ _ => 1) ↔ (1 : ℚ) ≠ 0) :=
  C10_exact_zero_test 0 1 1 (fun _ _ => 1) 0 0 (le_refl 0) (by decide) (by decide)

/-- C1: for every initialized matrix with an attached DofMap whose row
ownership is partitioned contiguously by increasing rank starting at global
row 0 (each rank's range inside the global row count), dense-mode printing
succeeds — all receipt-ordering asserts pass — and produces exactly `m`
lines of exactly `n` fields each, in the shape: the root's own rows
`[first_dof, end_dof)` first, then the lines obtained by draining the
received buffers in rank order, then trailing all-zero rows padding up to
global row count `m`; degenerate 0-row or 0-column shapes are included. -/
theorem C1_dense_shape (s : PrintSetup)
    (hinit : s.initialized = true) (hdm : s.hasDofMap = true)
    (hP : 0 < s.nProc) (h0 : s.fd 0 = 0)
    (hle : ∀ p, p < s.nProc → s.fd p ≤ s.ed p)
    (hm : ∀ p, p < s.nProc → s.ed p ≤ s.m)
    (hcontig : ∀ p, p + 1 < s.nProc → s.ed p = s.fd (p + 1)) :
    ∃ lines, printDense s = some lines ∧ lines.length = s.m ∧
      (∀ l ∈ lines, l.length = s.n) ∧
      ∃ recvLines k,
        lines = ownDense (s.fd 0) (s.ed 0) s.n s.A ++ recvLines ++
          List.replicate k ((List.range s.n).map fun _ => (0 : ℚ)) := by
  have hmemP : ∀ p ∈ List.range' 1 (s.nProc - 1), 1 ≤ p ∧ p < s.nProc := by
    intro p hp
    have := List.mem_range'_1.1 hp
    omega
  have hok : ∀ pb ∈ (List.range' 1 (s.nProc - 1)).map
      (fun p => ((s.fd p, s.ed p), sendBuf (s.fd p) (s.ed p) s.n s.A)),
      (∀ x ∈ pb.2, pb.1.1 ≤ x.1 ∧ x.1 < pb.1.2) ∧
      List.Pairwise (fun a b : Trip => a.1 ≤ b.1) pb.2 ∧ pb.1.1 ≤ pb.1.2 := by
    intro pb hpb
    rcases List.mem_map.1 hpb with ⟨p, hp, rfl⟩
    exact ⟨fun x hx => sendBuf_row_mem hx, sendBuf_pairwise _ _ _ _,
      hle p (hmemP p hp).2⟩
  have hchain : bndChain (s.ed 0)
      (((List.range' 1 (s.nProc - 1)).map
        (fun p => ((s.fd p, s.ed p), sendBuf (s.fd p) (s.ed p) s.n s.A))).map Prod.fst) := by
    have hmapfst : ((List.range' 1 (s.nProc - 1)).map
        (fun p => ((s.fd p, s.ed p), sendBuf (s.fd p) (s.ed p) s.n s.A))).map Prod.fst =
        (List.range' 1 (s.nProc - 1)).map fun p => (s.fd p, s.ed p) := by
      rw [List.map_map]
      rfl
    rw [hmapfst]
    apply bndChain_ranges
    · intro hk
      exact le_of_eq (hcontig 0 (by omega))
    · intro q hq hlt
      exact le_of_eq (hcontig q (by omega))
  have hMb : ∀ pb ∈ (List.range' 1 (s.nProc - 1)).map
      (fun p => ((s.fd p, s.ed p), sendBuf (s.fd p) (s.ed p) s.n s.A)), pb.1.2 ≤ s.m := by
    intro pb hpb
    rcases List.mem_map.1 hpb with ⟨p, hp, rfl⟩
    exact hm p (hmemP p hp).2
  obtain ⟨ls, cur2, heq, hlen, hle2, hM2, hfields⟩ :=
    recvLoopDense_spec s.n
      ((List.range' 1 (s.nProc - 1)).map
        (fun p => ((s.fd p, s.ed p), sendBuf (s.fd p) (s.ed p) s.n s.A)))
      (s.ed 0) s.m hok hchain hMb (hm 0 hP)
  have hbufs : ((List.range' 1 (s.nProc - 1)).map
      (fun p => ((s.fd p, s.ed p), sendBuf (s.fd p) (s.ed p) s.n s.A))).map Prod.snd =
      (List.range' 1 (s.nProc - 1)).map fun p => sendBuf (s.fd p) (s.ed p) s.n s.A := by
    rw [List.map_map]
    rfl
  rw [hbufs] at heq
  refine ⟨ownDense (s.fd 0) (s.ed 0) s.n s.A ++ ls ++
    List.replicate (s.m - cur2) ((List.range s.n).map fun _ => (0 : ℚ)),
    ?_, ?_, ?_, ls, s.m - cur2, rfl⟩
  · unfold printDense
    have hpad : (List.range' cur2 (s.m - cur2)).map
        (fun _ => (List.range s.n).map fun _ => (0 : ℚ)) =
        List.replicate (s.m - cur2) ((List.range s.n).map fun _ => (0 : ℚ)) := by
      rw [show (fun _ : ℕ => (List.range s.n).map fun _ => (0 : ℚ)) =
        Function.const ℕ ((List.range s.n).map fun _ => (0 : ℚ)) from rfl,
        List.map_const, List.length_range']
    rw [if_pos hinit, if_pos hdm, if_pos h0, heq, ← hpad]
  · rw [List.length_append, List.length_append, List.length_replicate]
    have hown : (ownDense (s.fd 0) (s.ed 0) s.n s.A).length = s.ed 0 - s.fd 0 := by
      rw [ownDense, List.length_map, List.length_range']
    rw [hown, h0]
    omega
  · intro l hl
    rcases List.mem_append.1 hl with hl2 | hl3
    · rcases List.mem_append.1 hl2 with hl4 | hl5
      · rcases List.mem_map.1 hl4 with ⟨i, _, rfl⟩
        rw [List.length_map, List.length_range]
      · exact hfields l hl5
    · rw [List.eq_of_mem_replicate hl3, List.length_map, List.length_range]

/-- Witness for C1: the spec's two-process scenario — rank 0 owns rows
`[0, 2)` with entries `(0,0) = 1`, `(1,1) = 2`; rank 1 owns row `[2, 3)` with
entry `(2,0) = 3` — printed dense over a 3-by-3 matrix gives exactly three
lines. -/
theorem C1_witness :
    (printDense
      { nProc := 2
        fd := fun p => if p = 0 then 0 else 2
        ed := fun p => if p = 0 then 2 else 3
        m := 3
        n := 3
        A := fun i j =>
          if i = 0 ∧ j = 0 then 1 else if i = 1 ∧ j = 1 then 2 else
            if i = 2 ∧ j = 0 then 3 else 0
        initialized := true
        hasDofMap := true }).map List.length = some 3 := by
  obtain ⟨lines, heq, hlen, _⟩ := C1_dense_shape
    { nProc := 2
      fd := fun p => if p = 0 then 0 else 2
      ed := fun p => if p = 0 then 2 else 3
      m := 3
      n := 3
      A := fun i j =>
        if i = 0 ∧ j = 0 then 1 else if i = 1 ∧ j = 1 then 2 else
          if i = 2 ∧ j = 0 then 3 else 0
      initialized := true
      hasDofMap := true }
    rfl rfl (by decide) rfl
    (by decide)
    (by decide)
    (fun p hp => by
      have hp2 : p + 1 < 2 := hp
      have hp0 : p = 0 := by omega
      rw [hp0]
      rfl)
  rw [heq, Option.map_some', hlen]

end LibmeshSM
